import Mathlib

/-!
Verification of the opendal access layer against its specification.

The definitions below are shallow embeddings of the Rust sources:
`src/error.rs`, the backend error parsers (`services/ghac/error.rs`,
`services/azblob/error.rs`, `services/ipmfs/error.rs`), the hdfs backend
(`services/hdfs/backend.rs`), the builder (`builder.rs`), the concurrent
limit layer (`layers/concurrent_limit.rs`), the streaming adapter
(`raw/io/output/into_reader/as_streamable.rs`) and the azdfs listing pager
(`services/azdfs/dir_stream.rs`). Machine integers (u64) are modelled as
Nat, with underflow and overflow made explicit through Option wherever the
Rust arithmetic can panic. Fallible code returns Except or Option.
-/

namespace Opendal

/-- ErrorKind from `src/error.rs`: all kinds of opendal Error. -/
inductive ErrorKind
  | Unexpected
  | Unsupported
  | BackendConfigInvalid
  | ObjectNotFound
  | ObjectPermissionDenied
  | ObjectIsADirectory
  | ObjectNotADirectory
  | ObjectAlreadyExists
  | ObjectRateLimited
  deriving DecidableEq, Repr

/-- `ErrorKind::into_static` from `src/error.rs`. -/
def ErrorKind.intoStatic : ErrorKind → String
  | .Unexpected => "Unexpected"
  | .Unsupported => "Unsupported"
  | .BackendConfigInvalid => "BackendConfigInvalid"
  | .ObjectNotFound => "ObjectNotFound"
  | .ObjectPermissionDenied => "ObjectPermissionDenied"
  | .ObjectIsADirectory => "ObjectIsADirectory"
  | .ObjectNotADirectory => "ObjectNotADirectory"
  | .ObjectAlreadyExists => "ObjectAlreadyExists"
  | .ObjectRateLimited => "ObjectRateLimited"

/-- ErrorStatus from `src/error.rs`. -/
inductive ErrorStatus
  | Permanent
  | Temporary
  | Persistent
  deriving DecidableEq, Repr

/-- The Display impl for ErrorStatus from `src/error.rs`. -/
def ErrorStatus.display : ErrorStatus → String
  | .Permanent => "permanent"
  | .Temporary => "temporary"
  | .Persistent => "persistent"

/-- Error from `src/error.rs`. The `source` field (an anyhow Error in the
Rust code) is modelled by the single-line string its Display produces. -/
structure Error where
  kind : ErrorKind
  message : String
  status : ErrorStatus
  operation : String
  context : List (String × String)
  source : Option String
  deriving DecidableEq, Repr

/-- `Error::new` from `src/error.rs`: status starts Permanent, empty
operation, empty context, no source. -/
def Error.new (kind : ErrorKind) (message : String) : Error :=
  { kind := kind, message := message, status := ErrorStatus.Permanent,
    operation := "", context := [], source := none }

/-- `Error::with_context` from `src/error.rs`: push a pair on the context. -/
def Error.withContext (e : Error) (key value : String) : Error :=
  { e with context := e.context ++ [(key, value)] }

/-- `Error::set_temporary` from `src/error.rs`. -/
def Error.setTemporary (e : Error) : Error :=
  { e with status := ErrorStatus.Temporary }

/-- `Error::set_permanent` from `src/error.rs`. -/
def Error.setPermanent (e : Error) : Error :=
  { e with status := ErrorStatus.Permanent }

/-- `Error::set_persistent` from `src/error.rs`. -/
def Error.setPersistent (e : Error) : Error :=
  { e with status := ErrorStatus.Persistent }

/-- `Error::set_source` from `src/error.rs` (the debug assertion aside). -/
def Error.setSource (e : Error) (src : String) : Error :=
  { e with source := some src }

/-- The Display impl for Error from `src/error.rs`, reproduced write by
write: header, then the context block when the context list is non-empty,
then the message when non-empty, then the source when present. -/
def Error.displayFmt (e : Error) : String :=
  let s := e.kind.intoStatic ++ " (" ++ e.status.display ++ ") at " ++ e.operation
  let s := if e.context.isEmpty then s else
    s ++ ", context: \x7b " ++
      String.intercalate ", " (e.context.map (fun kv => kv.1 ++ ": " ++ kv.2)) ++
      " \x7d"
  let s := if e.message.isEmpty then s else s ++ " => " ++ e.message
  match e.source with
  | some src => s ++ ", source: " ++ src
  | none => s

/-- The io ErrorKind values the conversion in `src/error.rs` can produce. -/
inductive IoErrorKind
  | NotFound
  | PermissionDenied
  | Other
  deriving DecidableEq, Repr

/-- The host generic I/O error: a kind plus the wrapped opendal Error
payload, as built by `io::Error::new(kind, err)`. -/
structure IoError where
  kind : IoErrorKind
  payload : Error
  deriving DecidableEq, Repr

/-- The From impl for io Error in `src/error.rs`: map the opendal kind to
an io kind and wrap the original error as payload. -/
def ioErrorFrom (err : Error) : IoError :=
  let kind := match err.kind with
    | ErrorKind.ObjectNotFound => IoErrorKind.NotFound
    | ErrorKind.ObjectPermissionDenied => IoErrorKind.PermissionDenied
    | _ => IoErrorKind.Other
  { kind := kind, payload := err }

/-- The status classification of `parse_error` in `src/services/ghac/error.rs`:
the match on `parts.status` producing `(kind, retryable)`. HTTP statuses are
their numeric codes (404 NOT_FOUND, 204 NO_CONTENT, 409 CONFLICT,
403 FORBIDDEN, 429 TOO_MANY_REQUESTS, 500, 502, 503, 504). -/
def ghacClassify (status : Nat) : ErrorKind × Bool :=
  if status = 404 ∨ status = 204 then (ErrorKind.ObjectNotFound, false)
  else if status = 409 then (ErrorKind.ObjectAlreadyExists, false)
  else if status = 403 then (ErrorKind.ObjectPermissionDenied, false)
  else if status = 429 then (ErrorKind.ObjectRateLimited, true)
  else if status = 500 ∨ status = 502 ∨ status = 503 ∨ status = 504 then
    (ErrorKind.Unexpected, true)
  else (ErrorKind.Unexpected, false)

/-- `parse_error` in `src/services/ghac/error.rs`: build the Error from the
classification, the body text as message, the response debug text as
context, and set temporary when retryable. -/
def ghacParseError (status : Nat) (body : String) (respDebug : String) : Error :=
  let kr := ghacClassify status
  let err := (Error.new kr.1 body).withContext "response" respDebug
  if kr.2 then err.setTemporary else err

/-- The status classification of `parse_error` in
`src/services/azblob/error.rs`. -/
def azblobClassify (status : Nat) : ErrorKind × Bool :=
  if status = 404 then (ErrorKind.ObjectNotFound, false)
  else if status = 403 then (ErrorKind.ObjectPermissionDenied, false)
  else if status = 500 ∨ status = 502 ∨ status = 503 ∨ status = 504 then
    (ErrorKind.Unexpected, true)
  else (ErrorKind.Unexpected, false)

/-- `parse_error` in `src/services/azblob/error.rs`: the message is the
formatted AzblobError (or raw body); the XML and header handling is
abstracted into the `message` argument, which the classification never
inspects. -/
def azblobParseError (status : Nat) (message : String) (respDebug : String) :
    Error :=
  let kr := azblobClassify status
  let err := (Error.new kr.1 message).withContext "response" respDebug
  if kr.2 then err.setTemporary else err

/-- The status classification of `parse_error` in
`src/services/ipmfs/error.rs`. `bodyMessage` is the `Message` field of the
JSON body when it parsed (`de::from_slice::<IpfsError>(..).ok()`). -/
def ipmfsClassify (status : Nat) (bodyMessage : Option String) :
    ErrorKind × Bool :=
  if status = 500 then
    match bodyMessage with
    | some m =>
      if m = "file does not exist" then (ErrorKind.ObjectNotFound, false)
      else (ErrorKind.Unexpected, false)
    | none => (ErrorKind.Unexpected, false)
  else if status = 502 ∨ status = 503 ∨ status = 504 then
    (ErrorKind.Unexpected, true)
  else (ErrorKind.Unexpected, false)

/-- `parse_error` in `src/services/ipmfs/error.rs`: classify, then build the
Error with the formatted body as message and set temporary when retryable. -/
def ipmfsParseError (status : Nat) (bodyMessage : Option String)
    (message : String) (respDebug : String) : Error :=
  let kr := ipmfsClassify status bodyMessage
  let err := (Error.new kr.1 message).withContext "response" respDebug
  if kr.2 then err.setTemporary else err

/-- Checked Nat subtraction: `some (a - b)` when it does not underflow.
Models Rust u64 subtraction, which panics on underflow. -/
def checkedSub (a b : Nat) : Option Nat :=
  if b ≤ a then some (a - b) else none

/-- Checked u64 addition: `some (a + b)` when the sum fits in 64 bits.
Models Rust u64 addition, which panics on overflow. -/
def checkedAdd64 (a b : Nat) : Option Nat :=
  if a + b < 2 ^ 64 then some (a + b) else none

/-- BytesRange as used by `OpRead` in the hdfs backend: an optional offset
and an optional size, both u64. -/
structure BytesRange where
  offset : Option Nat
  size : Option Nat
  deriving DecidableEq, Repr

/-- The `(start, end)` computation of `HdfsBackend::read` and
`HdfsBackend::blocking_read` in `src/services/hdfs/backend.rs`:
`(Some(offset), Some(size)) => (offset, min(offset + size, meta.len()))`,
`(Some(offset), None) => (offset, meta.len())`,
`(None, Some(size)) => (meta.len() - size, meta.len())`,
`(None, None) => (0, meta.len())`,
with the u64 arithmetic made explicit through Option. -/
def hdfsRange (len : Nat) (br : BytesRange) : Option (Nat × Nat) :=
  match br.offset, br.size with
  | some offset, some size =>
    (checkedAdd64 offset size).map (fun e => (offset, min e len))
  | some offset, none => some (offset, len)
  | none, some size => (checkedSub len size).map (fun s => (s, len))
  | none, none => some (0, len)

/-- `HdfsBackend::read` in `src/services/hdfs/backend.rs`, restricted to its
range arithmetic: compute `(start, end)` from the range and the file length,
then `RpRead::new(end - start)`. Returns `(rpReadSize, start, end)`;
`none` models a u64 panic. -/
def hdfsReadPlan (len : Nat) (br : BytesRange) : Option (Nat × Nat × Nat) :=
  (hdfsRange len br).bind fun se =>
    (checkedSub se.2 se.1).map (fun n => (n, se.1, se.2))

/-- Modelled from the spec: `output::into_reader::from_fd` is not under
`src/`; per the spec a Reader opened for the half-open range
`[start, end)` of a file produces exactly the bytes of the file in that
range. -/
def fdReaderBytes (content : List Nat) (s e : Nat) : List Nat :=
  (content.drop s).take (e - s)

/-- File metadata as the hdfs client returns it: directory flag (length is
passed separately where needed). -/
structure HdfsFileMeta where
  isDir : Bool
  deriving DecidableEq, Repr

/-- `HdfsBackend::delete` in `src/services/hdfs/backend.rs`: look up the
metadata; a NotFound error becomes `Ok(RpDelete)`, any other error is
surfaced through `parse_io_error` (passed as a parameter, since
`services/hdfs/error.rs` is not under `src/`); otherwise remove the dir or
the file and surface its result. `RpDelete` is a unit record. -/
def hdfsDelete (parseIo : IoErrorKind → Error)
    (meta : Except IoErrorKind HdfsFileMeta)
    (removeDir removeFile : Except IoErrorKind Unit) : Except Error Unit :=
  match meta with
  | Except.error err =>
    if err = IoErrorKind.NotFound then Except.ok ()
    else Except.error (parseIo err)
  | Except.ok m =>
    match (if m.isDir then removeDir else removeFile) with
    | Except.error e => Except.error (parseIo e)
    | Except.ok _ => Except.ok ()

/-- `HdfsBackend::blocking_delete` in `src/services/hdfs/backend.rs`; its
body is identical to the async `delete`. -/
def hdfsBlockingDelete (parseIo : IoErrorKind → Error)
    (meta : Except IoErrorKind HdfsFileMeta)
    (removeDir removeFile : Except IoErrorKind Unit) : Except Error Unit :=
  match meta with
  | Except.error err =>
    if err = IoErrorKind.NotFound then Except.ok ()
    else Except.error (parseIo err)
  | Except.ok m =>
    match (if m.isDir then removeDir else removeFile) with
    | Except.error e => Except.error (parseIo e)
    | Except.ok _ => Except.ok ()

/-- `str::strip_prefix` as used by `Builder::from_env` in `src/builder.rs`:
the remainder of `s` after `p`, when `p` leads `s`. Strings are modelled as
character lists. -/
def stripPfx : List Char → List Char → Option (List Char)
  | [], s => some s
  | _ :: _, [] => none
  | p :: ps, c :: cs => if p = c then stripPfx ps cs else none

/-- The env prefix `format!("opendal_{}_", Self::SCHEME)` of
`Builder::from_env` in `src/builder.rs`. -/
def envPfx (scheme : List Char) : List Char :=
  "opendal_".toList ++ scheme ++ "_".toList

/-- The env collection of `Builder::from_env` in `src/builder.rs`:
`env::vars().filter_map(|(k, v)| k.to_lowercase().strip_prefix(&prefix).map(|k| (k.to_string(), v)))`.
The environment is modelled as a list of (name, value) pairs. -/
def fromEnvPairs (scheme : List Char) (env : List (List Char × String)) :
    List (List Char × String) :=
  env.filterMap fun kv =>
    (stripPfx (envPfx scheme) (kv.1.map Char.toLower)).map (fun k => (k, kv.2))

/-- A backend Builder for the purpose of `from_env`: its scheme constant and
its `from_map` constructor, as in the trait of `src/builder.rs`. -/
structure BuilderImpl (β : Type) where
  scheme : List Char
  fromMap : List (List Char × String) → β

/-- `Builder::from_env` in `src/builder.rs`: collect the matching env vars
and hand them to `from_map`. -/
def BuilderImpl.fromEnv {β : Type} (b : BuilderImpl β)
    (env : List (List Char × String)) : β :=
  b.fromMap (fromEnvPairs b.scheme env)

/-- Modelled from the spec: the S3 builder is not under `src/`; per the
spec it has a `bucket` parameter with a fluent setter, and `from_map` reads
the map key `bucket`. Only the bucket field is modelled. -/
structure S3Builder where
  bucket : String
  deriving DecidableEq, Repr

/-- Modelled from the spec: the S3 `from_map`, reading `bucket` from the
configuration map (empty when absent, as an unset builder field). -/
def s3FromMap (m : List (List Char × String)) : S3Builder :=
  { bucket := ((m.lookup "bucket".toList).getD "") }

/-- The S3 builder as a `BuilderImpl`, with `SCHEME` rendering as `s3`. -/
def s3Builder : BuilderImpl S3Builder :=
  { scheme := "s3".toList, fromMap := s3FromMap }

/-- The state of `IntoStream` from
`src/raw/io/output/into_reader/as_streamable.rs`: the underlying reader and
the configured capacity. The underlying `output::Read` is modelled as the
byte sequence it has left to produce; its `poll_read` into a buffer of
length `n` yields the next `min n remaining` bytes. -/
structure IntoStream where
  r : List Nat
  cap : Nat
  deriving DecidableEq, Repr

/-- The underlying reader `poll_read` into a buffer of length `n`: the bytes
read and the rest of the reader. -/
def pollRead (bs : List Nat) (n : Nat) : List Nat × List Nat :=
  (bs.take n, bs.drop n)

/-- `IntoStream::poll_next` from
`src/raw/io/output/into_reader/as_streamable.rs`: poll_read into a buffer of
length `cap`; `Ok(0)` yields `None`, `Ok(n)` yields the first `n` bytes of
the buffer. Returns the yielded chunk and the successor state. -/
def IntoStream.pollNext (s : IntoStream) : Option (List Nat) × IntoStream :=
  let chunk := (pollRead s.r s.cap).1
  let rest := (pollRead s.r s.cap).2
  if chunk.length = 0 then (none, { r := rest, cap := s.cap })
  else (some chunk, { r := rest, cap := s.cap })

/-- Iterate `IntoStream.pollNext` until it yields `None`, with fuel. -/
def streamChunksAux (cap : Nat) : Nat → List Nat → List (List Nat)
  | 0, _ => []
  | fuel + 1, bs =>
    match (IntoStream.pollNext { r := bs, cap := cap }).1 with
    | none => []
    | some chunk =>
      chunk :: streamChunksAux cap fuel (IntoStream.pollNext { r := bs, cap := cap }).2.r

/-- All chunks `as_streamable(r, cap)` yields over the full byte sequence of
the reader. -/
def streamChunks (cap : Nat) (bs : List Nat) : List (List Nat) :=
  streamChunksAux cap bs.length bs

/-- State of the concurrent limit layer of `src/layers/concurrent_limit.rs`:
free semaphore permits, operations between the permit acquisition and their
return (split by whether they produce a Reader or Pager), and live
readers/pagers holding an owned permit. -/
structure LimitState where
  available : Nat
  inflightSimple : Nat
  inflightStream : Nat
  streams : Nat
  deriving DecidableEq, Repr

/-- One atomic event of `ConcurrentLimitAccessor` from
`src/layers/concurrent_limit.rs`, for an arbitrary interleaving of callers:
every operation acquires one permit before invoking the inner accessor
(`acquire`/`try_acquire` succeed only when a permit is free); simple
operations (create, write, stat, delete, the multipart calls) release on
return; read and list hold an owned permit which on success moves into the
returned `ConcurrentLimitReader` or pager and on error is released; dropping
a reader or pager releases its owned permit. -/
inductive LimitStep : LimitState → LimitState → Prop
  | acquireSimple (a f g r : Nat) :
      LimitStep ⟨a + 1, f, g, r⟩ ⟨a, f + 1, g, r⟩
  | acquireStream (a f g r : Nat) :
      LimitStep ⟨a + 1, f, g, r⟩ ⟨a, f, g + 1, r⟩
  | returnSimple (a f g r : Nat) :
      LimitStep ⟨a, f + 1, g, r⟩ ⟨a + 1, f, g, r⟩
  | returnStreamOk (a f g r : Nat) :
      LimitStep ⟨a, f, g + 1, r⟩ ⟨a, f, g, r + 1⟩
  | returnStreamErr (a f g r : Nat) :
      LimitStep ⟨a, f, g + 1, r⟩ ⟨a + 1, f, g, r⟩
  | dropStream (a f g r : Nat) :
      LimitStep ⟨a, f, g, r + 1⟩ ⟨a + 1, f, g, r⟩

/-- The states reachable from a fresh `ConcurrentLimitLayer::new(k)`: the
semaphore starts with `k` free permits and nothing in flight. -/
inductive LimitReach (k : Nat) : LimitState → Prop
  | init : LimitReach k ⟨k, 0, 0, 0⟩
  | step {s s' : LimitState} : LimitReach k s → LimitStep s s' → LimitReach k s'

/-- State of the azdfs `DirStream` from
`src/services/azdfs/dir_stream.rs`: the continuation token and the done
flag (`continuation` starts empty, `done` starts false). -/
structure AzdfsDirState where
  continuation : String
  done : Bool
  deriving DecidableEq, Repr

/-- A backend response to `azdfs_list`, as `DirStream::next_page` consumes
it: HTTP status, the `x-ms-continuation` header when present, and the body
once deserialized (`none` models a body whose JSON or field parsing fails). -/
structure AzdfsResp (α : Type) where
  status : Nat
  contHeader : Option String
  body : Option (List α)

/-- `DirStream::next_page` from `src/services/azdfs/dir_stream.rs`. The
returned triple is (result, successor state, whether a backend request was
issued). A non-OK non-NOT_FOUND status surfaces the parsed error
(`Except.error ()`, the azdfs `parse_error` being outside `src/`); after a
200 the continuation header updates the state (no header sets `done`)
before the body is decoded. -/
def azdfsNextPage {α : Type} (st : AzdfsDirState) (resp : AzdfsResp α) :
    Except Unit (Option (List α)) × AzdfsDirState × Bool :=
  if st.done then (Except.ok none, st, false)
  else
    if resp.status = 404 then (Except.ok none, st, true)
    else if resp.status ≠ 200 then (Except.error (), st, true)
    else
      let st' := match resp.contHeader with
        | some v => { st with continuation := v }
        | none => { continuation := "", done := true }
      match resp.body with
      | none => (Except.error (), st', true)
      | some entries => (Except.ok (some entries), st', true)

/-- The header of the Display output, per the spec wording:
`<kind> (<status>) at <operation>`. -/
def displayHeader (e : Error) : String :=
  e.kind.intoStatic ++ " (" ++ e.status.display ++ ") at " ++ e.operation

/-- The context section of the Display output, per the spec wording:
present exactly when the context list is non-empty. -/
def displayCtx (e : Error) : String :=
  if e.context.isEmpty then "" else
    ", context: \x7b " ++
      String.intercalate ", " (e.context.map (fun kv => kv.1 ++ ": " ++ kv.2)) ++
      " \x7d"

/-- The message section of the Display output, per the spec wording:
present exactly when the message is non-empty. -/
def displayMsg (e : Error) : String :=
  if e.message.isEmpty then "" else " => " ++ e.message

/-- The source section of the Display output, per the spec wording:
present exactly when a source is present. -/
def displaySrc (e : Error) : String :=
  match e.source with
  | some src => ", source: " ++ src
  | none => ""

/-- The concrete error of scenario S6: Unexpected/Permanent at Read with
context `(path, /p)`, message `boom` and source `net`. -/
def s6Error : Error :=
  { kind := ErrorKind.Unexpected, message := "boom",
    status := ErrorStatus.Permanent, operation := "Read",
    context := [("path", "/p")], source := some "net" }

/-- C5: for every Error, Display output is the header
`<kind> (<status>) at <operation>` followed by the context section exactly
when the context is non-empty, the ` => <message>` section exactly when the
message is non-empty, and the `, source: <source>` section exactly when a
source is present; the S6 error formats to
`Unexpected (permanent) at Read, context: { path: /p } => boom, source: net`,
which contains no newline. -/
theorem error_display_format :
    (∀ e : Error,
      e.displayFmt = displayHeader e ++ displayCtx e ++ displayMsg e ++ displaySrc e) ∧
    s6Error.displayFmt =
      "Unexpected (permanent) at Read, context: \x7b path: /p \x7d => boom, source: net" ∧
    '\n' ∉ s6Error.displayFmt.data := by
  refine ⟨fun e => ?_, by rfl, by decide⟩
  unfold Error.displayFmt displayHeader displayCtx displayMsg displaySrc
  rcases e with ⟨k, msg, st, op, ctx, src⟩
  cases src <;> by_cases hc : ctx.isEmpty <;> by_cases hm : msg.isEmpty <;>
    simp only [hc, hm, if_true, if_false, ite_true, ite_false] <;>
    simp [String.append_assoc] <;> rfl

/-- C7: converting an opendal Error into the host generic I/O error maps
ObjectNotFound to NotFound, ObjectPermissionDenied to PermissionDenied and
every other kind to Other, wrapping the original error as the payload. -/
theorem error_into_io_error_mapping :
    ∀ e : Error,
      (ioErrorFrom e).payload = e ∧
      ((ioErrorFrom e).kind = IoErrorKind.NotFound ↔
        e.kind = ErrorKind.ObjectNotFound) ∧
      ((ioErrorFrom e).kind = IoErrorKind.PermissionDenied ↔
        e.kind = ErrorKind.ObjectPermissionDenied) ∧
      ((ioErrorFrom e).kind = IoErrorKind.Other ↔
        (e.kind ≠ ErrorKind.ObjectNotFound ∧
         e.kind ≠ ErrorKind.ObjectPermissionDenied)) := by
  intro e
  rcases e with ⟨k, msg, st, op, ctx, src⟩
  cases k <;> simp [ioErrorFrom]

/-- C4: hdfs `delete` and `blocking_delete` on a missing object (the
metadata lookup fails with NotFound) return success, for every error
translation and every behavior of the removal calls. -/
theorem hdfs_delete_idempotent_missing :
    ∀ (parseIo : IoErrorKind → Error)
      (removeDir removeFile : Except IoErrorKind Unit),
      hdfsDelete parseIo (Except.error IoErrorKind.NotFound)
        removeDir removeFile = Except.ok () ∧
      hdfsBlockingDelete parseIo (Except.error IoErrorKind.NotFound)
        removeDir removeFile = Except.ok () :=
  fun _ _ _ => ⟨rfl, rfl⟩

/-- The kind and status a parse produces, for stating the mappings. -/
def kindStatus (e : Error) : ErrorKind × ErrorStatus :=
  (e.kind, e.status)

/-- C1 counterexample: the azblob error parser maps HTTP 429 to
Unexpected with Permanent status, not to ObjectRateLimited with Temporary
status as the claim states for every backend error parser. -/
theorem azblob_429_not_rate_limited :
    kindStatus (azblobParseError 429 "" "") =
      (ErrorKind.Unexpected, ErrorStatus.Permanent) ∧
    kindStatus (azblobParseError 429 "" "") ≠
      (ErrorKind.ObjectRateLimited, ErrorStatus.Temporary) := by
  exact ⟨rfl, by decide⟩

/-- C1 amended: the ghac parser implements the claimed mapping in full
(429 → ObjectRateLimited/Temporary; 500, 502, 503, 504 →
Unexpected/Temporary; 404 and 204 → ObjectNotFound/Permanent;
403 → ObjectPermissionDenied/Permanent; 409 → ObjectAlreadyExists/Permanent).
The azblob parser maps only 404 → ObjectNotFound/Permanent,
403 → ObjectPermissionDenied/Permanent and 500, 502, 503, 504 →
Unexpected/Temporary, with every other status (429, 409, 204 included)
mapped to Unexpected/Permanent. The ipmfs parser maps 502, 503, 504 →
Unexpected/Temporary, 500 with body message `file does not exist` →
ObjectNotFound/Permanent, other 500 bodies → Unexpected/Permanent, and
every other status (429, 404, 403, 409 included) to Unexpected/Permanent. -/
theorem backend_error_parser_mappings :
    ∀ (b r m : String),
      kindStatus (ghacParseError 429 b r) =
        (ErrorKind.ObjectRateLimited, ErrorStatus.Temporary) ∧
      kindStatus (ghacParseError 500 b r) =
        (ErrorKind.Unexpected, ErrorStatus.Temporary) ∧
      kindStatus (ghacParseError 502 b r) =
        (ErrorKind.Unexpected, ErrorStatus.Temporary) ∧
      kindStatus (ghacParseError 503 b r) =
        (ErrorKind.Unexpected, ErrorStatus.Temporary) ∧
      kindStatus (ghacParseError 504 b r) =
        (ErrorKind.Unexpected, ErrorStatus.Temporary) ∧
      kindStatus (ghacParseError 404 b r) =
        (ErrorKind.ObjectNotFound, ErrorStatus.Permanent) ∧
      kindStatus (ghacParseError 204 b r) =
        (ErrorKind.ObjectNotFound, ErrorStatus.Permanent) ∧
      kindStatus (ghacParseError 403 b r) =
        (ErrorKind.ObjectPermissionDenied, ErrorStatus.Permanent) ∧
      kindStatus (ghacParseError 409 b r) =
        (ErrorKind.ObjectAlreadyExists, ErrorStatus.Permanent) ∧
      kindStatus (azblobParseError 404 m r) =
        (ErrorKind.ObjectNotFound, ErrorStatus.Permanent) ∧
      kindStatus (azblobParseError 403 m r) =
        (ErrorKind.ObjectPermissionDenied, ErrorStatus.Permanent) ∧
      kindStatus (azblobParseError 500 m r) =
        (ErrorKind.Unexpected, ErrorStatus.Temporary) ∧
      kindStatus (azblobParseError 502 m r) =
        (ErrorKind.Unexpected, ErrorStatus.Temporary) ∧
      kindStatus (azblobParseError 503 m r) =
        (ErrorKind.Unexpected, ErrorStatus.Temporary) ∧
      kindStatus (azblobParseError 504 m r) =
        (ErrorKind.Unexpected, ErrorStatus.Temporary) ∧
      kindStatus (azblobParseError 429 m r) =
        (ErrorKind.Unexpected, ErrorStatus.Permanent) ∧
      kindStatus (azblobParseError 409 m r) =
        (ErrorKind.Unexpected, ErrorStatus.Permanent) ∧
      kindStatus (azblobParseError 204 m r) =
        (ErrorKind.Unexpected, ErrorStatus.Permanent) ∧
      kindStatus (ipmfsParseError 500 (some "file does not exist") m r) =
        (ErrorKind.ObjectNotFound, ErrorStatus.Permanent) ∧
      kindStatus (ipmfsParseError 500 (some b) m r) =
        (if b = "file does not exist" then ErrorKind.ObjectNotFound
         else ErrorKind.Unexpected, ErrorStatus.Permanent) ∧
      kindStatus (ipmfsParseError 500 none m r) =
        (ErrorKind.Unexpected, ErrorStatus.Permanent) ∧
      kindStatus (ipmfsParseError 502 none m r) =
        (ErrorKind.Unexpected, ErrorStatus.Temporary) ∧
      kindStatus (ipmfsParseError 503 none m r) =
        (ErrorKind.Unexpected, ErrorStatus.Temporary) ∧
      kindStatus (ipmfsParseError 504 none m r) =
        (ErrorKind.Unexpected, ErrorStatus.Temporary) ∧
      kindStatus (ipmfsParseError 429 none m r) =
        (ErrorKind.Unexpected, ErrorStatus.Permanent) ∧
      kindStatus (ipmfsParseError 404 none m r) =
        (ErrorKind.Unexpected, ErrorStatus.Permanent) ∧
      kindStatus (ipmfsParseError 403 none m r) =
        (ErrorKind.Unexpected, ErrorStatus.Permanent) ∧
      kindStatus (ipmfsParseError 409 none m r) =
        (ErrorKind.Unexpected, ErrorStatus.Permanent) := by
  intro b r m
  refine ⟨rfl, rfl, rfl, rfl, rfl, rfl, rfl, rfl, rfl, rfl, rfl, rfl, rfl,
    rfl, rfl, rfl, rfl, rfl, rfl, ?_, rfl, rfl, rfl, rfl, rfl, rfl, rfl, rfl⟩
  by_cases hb : b = "file does not exist" <;>
    simp [kindStatus, ipmfsParseError, ipmfsClassify, Error.new,
      Error.withContext, Error.setTemporary, hb]

/-- A successful hdfs read plan has start at most end, end at most the file
length, and records end minus start as the RpRead size. -/
theorem hdfsRange_eq {len : Nat} {br : BytesRange} {s e : Nat}
    (h : hdfsRange len br = some (s, e)) :
    e ≤ len ∧
    (∀ o sz, br = ⟨some o, some sz⟩ → s = o ∧ e = min (o + sz) len) ∧
    (∀ o, br = ⟨some o, none⟩ → s = o ∧ e = len) ∧
    (∀ sz, br = ⟨none, some sz⟩ → sz ≤ len ∧ s = len - sz ∧ e = len) ∧
    (br = ⟨none, none⟩ → s = 0 ∧ e = len) := by
  rcases br with ⟨_ | o, _ | sz⟩
  · simp only [hdfsRange, Option.some_inj, Prod.mk.injEq] at h
    obtain ⟨rfl, rfl⟩ := h
    refine ⟨Nat.le_refl _, ?_, ?_, ?_, ?_⟩ <;> simp
  · simp only [hdfsRange, Option.map_eq_some'] at h
    obtain ⟨a, ha, hae⟩ := h
    unfold checkedSub at ha
    split_ifs at ha with hle
    obtain rfl := Option.some_inj.mp ha
    obtain ⟨rfl, rfl⟩ := Prod.mk.injEq .. |>.mp hae
    refine ⟨Nat.le_refl _, ?_, ?_, ?_, ?_⟩ <;> simp <;> omega
  · simp only [hdfsRange, Option.some_inj, Prod.mk.injEq] at h
    obtain ⟨rfl, rfl⟩ := h
    refine ⟨Nat.le_refl _, ?_, ?_, ?_, ?_⟩ <;> simp
  · simp only [hdfsRange, Option.map_eq_some'] at h
    obtain ⟨a, ha, hae⟩ := h
    unfold checkedAdd64 at ha
    split_ifs at ha with hov
    obtain rfl := Option.some_inj.mp ha
    obtain ⟨rfl, rfl⟩ := Prod.mk.injEq .. |>.mp hae
    refine ⟨Nat.min_le_right _ _, ?_, ?_, ?_, ?_⟩ <;> simp <;> omega

/-- A successful hdfs read plan has start at most end, end at most the file
length, and records end minus start as the RpRead size. -/
theorem hdfsReadPlan_some_bounds {len : Nat} {br : BytesRange} {n s e : Nat}
    (h : hdfsReadPlan len br = some (n, s, e)) :
    n = e - s ∧ s ≤ e ∧ e ≤ len ∧ hdfsRange len br = some (s, e) := by
  unfold hdfsReadPlan at h
  obtain ⟨⟨s', e'⟩, hr, hsub⟩ := Option.bind_eq_some.mp h
  rw [Option.map_eq_some'] at hsub
  obtain ⟨m, hm, hme⟩ := hsub
  obtain ⟨rfl, rfl, rfl⟩ := Prod.mk.injEq .. |>.mp hme |>.imp id
    (fun q => Prod.mk.injEq .. |>.mp q)
  unfold checkedSub at hm
  split_ifs at hm with hle
  obtain rfl := Option.some_inj.mp hm
  exact ⟨rfl, hle, (hdfsRange_eq hr).1, hr⟩

/-- C3: whenever hdfs `read` (or `blocking_read`) computes its plan without
a u64 panic, the returned RpRead size is exactly end minus start, which is
exactly the number of bytes the reader over `[start, end)` will produce;
and the range endpoints follow HTTP semantics: `[offset, min(offset+size, len))`
for a full range, `[offset, len)` when the size is missing, the last `size`
bytes when the offset is missing, and the whole file when both are missing. -/
theorem hdfs_read_range_size :
    ∀ (content : List Nat) (br : BytesRange) (n s e : Nat),
      hdfsReadPlan content.length br = some (n, s, e) →
      n = e - s ∧ (fdReaderBytes content s e).length = n ∧
      (∀ o sz, br = ⟨some o, some sz⟩ →
        s = o ∧ e = min (o + sz) content.length) ∧
      (∀ o, br = ⟨some o, none⟩ → s = o ∧ e = content.length) ∧
      (∀ sz, br = ⟨none, some sz⟩ →
        s = content.length - sz ∧ e = content.length) ∧
      (br = ⟨none, none⟩ → s = 0 ∧ e = content.length) := by
  intro content br n s e h
  obtain ⟨hn, hse, helen, hrange⟩ := hdfsReadPlan_some_bounds h
  obtain ⟨_, h1, h2, h3, h4⟩ := hdfsRange_eq hrange
  refine ⟨hn, ?_, h1, h2, fun sz hbr => (h3 sz hbr).2, h4⟩
  simp only [fdReaderBytes, List.length_take, List.length_drop]
  omega

/-- C3 witness: reading range `(offset 1, size 2)` of a five byte file
plans `RpRead` size 2 over `[1, 3)`, and the reader produces 2 bytes. -/
theorem hdfs_read_range_size_witness :
    (fdReaderBytes [10, 11, 12, 13, 14] 1 3).length = 2 :=
  (hdfs_read_range_size [10, 11, 12, 13, 14] ⟨some 1, some 2⟩ 2 1 3
    (by rfl)).2.1

/-- C9: the hdfs read range arithmetic is unchecked u64 subtraction: for
range `(None, Some size)` the plan panics (underflows) exactly when the
size exceeds the file length; for `(Some offset, None)` it panics exactly
when the offset exceeds the file length; and any non-panicking plan
requires the offset (when present) and the suffix size (when the offset is
missing) to be at most the file length. -/
theorem hdfs_read_underflow :
    (∀ len sz : Nat,
      hdfsReadPlan len (BytesRange.mk none (some sz)) = none ↔ len < sz) ∧
    (∀ len o : Nat,
      hdfsReadPlan len (BytesRange.mk (some o) none) = none ↔ len < o) ∧
    (∀ (len : Nat) (br : BytesRange),
      (hdfsReadPlan len br).isSome = true →
      (∀ o, br.offset = some o → o ≤ len) ∧
      (br.offset = none → ∀ sz, br.size = some sz → sz ≤ len)) := by
  refine ⟨fun len sz => ?_, fun len o => ?_, fun len br h => ?_⟩
  · by_cases hle : sz ≤ len <;>
      simp [hdfsReadPlan, hdfsRange, checkedSub, hle, Nat.sub_le] <;> omega
  · by_cases hle : o ≤ len <;>
      simp [hdfsReadPlan, hdfsRange, checkedSub, hle] <;> omega
  · rw [Option.isSome_iff_exists] at h
    obtain ⟨⟨n, s, e⟩, h⟩ := h
    obtain ⟨hn, hse, helen, hrange⟩ := hdfsReadPlan_some_bounds h
    obtain ⟨_, h1, h2, h3, _⟩ := hdfsRange_eq hrange
    rcases br with ⟨_ | o, _ | sz⟩
    · exact ⟨fun o ho => by simp at ho, fun _ sz hsz => by simp at hsz⟩
    · refine ⟨fun o ho => by simp at ho, fun _ sz' hsz => ?_⟩
      obtain ⟨hle, _, _⟩ := h3 sz rfl
      simp only [Option.some_inj] at hsz
      omega
    · refine ⟨fun o' ho => ?_, fun hnone => by simp at hnone⟩
      obtain ⟨hs, he⟩ := h2 o rfl
      simp only [Option.some_inj] at ho
      omega
    · refine ⟨fun o' ho => ?_, fun hnone => by simp at hnone⟩
      obtain ⟨hs, he⟩ := h1 o sz rfl
      simp only [Option.some_inj] at ho
      omega

/-- C9 witness: requesting the last 5 bytes of a 3 byte file underflows
(the plan panics), while a well-bounded request is total and implies the
offset bound. -/
theorem hdfs_read_underflow_witness :
    hdfsReadPlan 3 (BytesRange.mk none (some 5)) = none ∧ (2 : Nat) ≤ 5 :=
  ⟨(hdfs_read_underflow.1 3 5).mpr (by decide),
   (hdfs_read_underflow.2.2 5 (BytesRange.mk (some 2) (some 2))
      (by rfl)).1 2 rfl⟩

/-- stripPfx succeeds exactly on strings led by the pattern, returning the
remainder. -/
theorem stripPfx_eq_some :
    ∀ (p s r : List Char), stripPfx p s = some r ↔ s = p ++ r := by
  intro p
  induction p with
  | nil =>
    intro s r
    simp [stripPfx]
  | cons c cs ih =>
    intro s r
    cases s with
    | nil => simp [stripPfx]
    | cons d ds =>
      by_cases hcd : c = d
      · subst hcd
        simp [stripPfx, ih]
      · simp only [stripPfx, if_neg hcd, List.cons_append]
        constructor
        · intro hx
          exact Option.noConfusion hx
        · intro hx
          injection hx with h1 h2
          exact absurd h1.symm hcd

/-- C6: for every builder and every environment, `from_env` equals
`from_map` applied to the collected map; that map holds exactly the pairs
`(rest, value)` for the env vars whose lowercased name is the prefix
`opendal_<scheme>_` followed by `rest`, with the value unchanged; and with
env `OPENDAL_S3_BUCKET=x` the S3 builder from_env yields bucket `x`. -/
theorem builder_from_env_spec :
    (∀ {β : Type} (b : BuilderImpl β) (env : List (List Char × String)),
      b.fromEnv env = b.fromMap (fromEnvPairs b.scheme env)) ∧
    (∀ (scheme : List Char) (env : List (List Char × String))
        (k : List Char) (v : String),
      (k, v) ∈ fromEnvPairs scheme env ↔
        ∃ kk, (kk, v) ∈ env ∧ kk.map Char.toLower = envPfx scheme ++ k) ∧
    (s3Builder.fromEnv [("OPENDAL_S3_BUCKET".toList, "x")]).bucket = "x" := by
  refine ⟨fun b env => rfl, ?_, by rfl⟩
  intro scheme env k v
  simp only [fromEnvPairs, List.mem_filterMap]
  constructor
  · rintro ⟨⟨kk, vv⟩, hmem, hf⟩
    rw [Option.map_eq_some'] at hf
    obtain ⟨rest, hstrip, heq⟩ := hf
    obtain ⟨rfl, rfl⟩ := Prod.mk.injEq .. |>.mp heq
    exact ⟨kk, hmem, (stripPfx_eq_some _ _ _).mp hstrip⟩
  · rintro ⟨kk, hmem, hlow⟩
    refine ⟨(kk, v), hmem, ?_⟩
    rw [Option.map_eq_some']
    exact ⟨k, (stripPfx_eq_some _ _ _).mpr hlow, rfl⟩

/-- A poll of the chunking adapter yields none exactly at the end of the
byte sequence, and a yielded chunk is non-empty, at most the capacity, and
exactly the next bytes of the sequence (capacity at least one). -/
theorem pollNext_spec (s : IntoStream) (hc : 1 ≤ s.cap) :
    ((s.pollNext).1 = none ↔ s.r = []) ∧
    (∀ b, (s.pollNext).1 = some b →
      1 ≤ b.length ∧ b.length ≤ s.cap ∧ b ++ (s.pollNext).2.r = s.r) := by
  rcases s with ⟨bs, cap⟩
  simp only at hc
  by_cases hbs : bs = []
  · subst hbs
    constructor
    · simp [IntoStream.pollNext, pollRead]
    · intro b hb
      simp [IntoStream.pollNext, pollRead] at hb
  · have hlen : 0 < bs.length := List.length_pos.mpr hbs
    have hcap0 : ¬(cap = 0) := by omega
    have hz : ¬((bs.take cap).length = 0) := by
      rw [List.length_take]
      omega
    constructor
    · simp [IntoStream.pollNext, pollRead, hz, hbs, hcap0]
    · intro b hb
      simp only [IntoStream.pollNext, pollRead, if_neg hz] at hb ⊢
      obtain rfl := Option.some_inj.mp hb
      refine ⟨?_, ?_, ?_⟩
      · rw [List.length_take]
        omega
      · rw [List.length_take]
        omega
      · exact List.take_append_drop cap bs

/-- Iterating the chunking adapter with enough fuel reassembles the byte
sequence. -/
theorem streamChunksAux_flatten (cap : Nat) (hc : 1 ≤ cap) :
    ∀ (fuel : Nat) (bs : List Nat), bs.length ≤ fuel →
      (streamChunksAux cap fuel bs).flatten = bs := by
  intro fuel
  induction fuel with
  | zero =>
    intro bs hbs
    have : bs = [] := List.length_eq_zero.mp (Nat.le_zero.mp hbs)
    subst this
    rfl
  | succ fuel ih =>
    intro bs hbs
    have hcap0 : ¬(cap = 0) := by omega
    cases bs with
    | nil =>
      have hpoll : IntoStream.pollNext ⟨([] : List Nat), cap⟩ =
          (none, ⟨[], cap⟩) := by
        simp [IntoStream.pollNext, pollRead]
      rw [streamChunksAux, hpoll]
      rfl
    | cons x xs =>
      have hz : ¬(((x :: xs).take cap).length = 0) := by
        rw [List.length_take]
        simp
        omega
      have hpoll : IntoStream.pollNext ⟨x :: xs, cap⟩ =
          (some ((x :: xs).take cap), ⟨(x :: xs).drop cap, cap⟩) := by
        simp [IntoStream.pollNext, pollRead, hz, hcap0]
      rw [streamChunksAux, hpoll]
      simp only [List.flatten_cons]
      rw [ih ((x :: xs).drop cap) (by rw [List.length_drop]; simp at hbs ⊢; omega)]
      exact List.take_append_drop cap (x :: xs)

/-- C8: for a byte-source reader and capacity at least one, the chunking
adapter is equivalent to the reader: poll_next yields none exactly when the
reader is exhausted (poll_read returns zero), every yielded chunk is
non-empty, at most the capacity, and exactly the next bytes the reader
produces, and the concatenation of all yielded chunks is the full byte
sequence of the reader. -/
theorem as_streamable_equiv :
    ∀ (s : IntoStream), 1 ≤ s.cap →
      ((s.pollNext).1 = none ↔ s.r = []) ∧
      (∀ b, (s.pollNext).1 = some b →
        1 ≤ b.length ∧ b.length ≤ s.cap ∧ b ++ (s.pollNext).2.r = s.r) ∧
      (streamChunks s.cap s.r).flatten = s.r := by
  intro s hc
  obtain ⟨h1, h2⟩ := pollNext_spec s hc
  exact ⟨h1, h2, streamChunksAux_flatten s.cap hc s.r.length s.r (Nat.le_refl _)⟩

/-- C8 witness: with capacity 2 over bytes `[1, 2, 3]` the adapter yields
`[1, 2]` then `[3]`, whose concatenation is the original sequence. -/
theorem as_streamable_equiv_witness :
    (streamChunks 2 [1, 2, 3]).flatten = [1, 2, 3] ∧
      1 ≤ ([1, 2] : List Nat).length :=
  ⟨(as_streamable_equiv ⟨[1, 2, 3], 2⟩ (by decide)).2.2,
   ((as_streamable_equiv ⟨[1, 2, 3], 2⟩ (by decide)).2.1 [1, 2] (by rfl)).1⟩

/-- Every reachable state of the concurrent limit layer keeps the permit
accounting: free permits plus held permits equal the configured count. -/
theorem limitReach_sum {k : Nat} {s : LimitState} (h : LimitReach k s) :
    s.available + s.inflightSimple + s.inflightStream + s.streams = k := by
  induction h with
  | init => simp
  | step _ hstep ih =>
    cases hstep <;> simp_all <;> omega

/-- C2: under a concurrent limit layer with `k` permits, in every state
reachable by any interleaving of operation starts, operation returns,
permit hand-offs to readers/pagers and reader/pager drops, the number of
in-flight operations plus live readers/pagers never exceeds `k`. -/
theorem concurrent_limit_bound :
    ∀ (k : Nat) (s : LimitState), LimitReach k s →
      s.inflightSimple + s.inflightStream + s.streams ≤ k := by
  intro k s h
  have hsum := limitReach_sum h
  omega

/-- C2 witness: with one permit, after a read acquires the permit and hands
it to its reader, the held count is one and within the bound. -/
theorem concurrent_limit_bound_witness :
    LimitState.inflightSimple ⟨0, 0, 0, 1⟩ +
      LimitState.inflightStream ⟨0, 0, 0, 1⟩ +
      LimitState.streams ⟨0, 0, 0, 1⟩ ≤ 1 :=
  concurrent_limit_bound 1 ⟨0, 0, 0, 1⟩
    (LimitReach.step
      (LimitReach.step LimitReach.init (LimitStep.acquireStream 0 0 0 0))
      (LimitStep.returnStreamOk 0 0 0 0))

/-- C10: once the azdfs pager is done (set by a 200 response without the
`x-ms-continuation` header, whatever the body), every later `next_page`
returns Ok(None) with the state unchanged and no backend request; a 404
response returns Ok(None) with the state unchanged and `done` still false,
and any call in a not-done state issues a backend request. -/
theorem azdfs_pager_done_semantics :
    ∀ (α : Type) (st : AzdfsDirState) (resp : AzdfsResp α),
      (st.done = true → azdfsNextPage st resp = (Except.ok none, st, false)) ∧
      (st.done = false → resp.status = 200 → resp.contHeader = none →
        (azdfsNextPage st resp).2.1.done = true) ∧
      (st.done = false → resp.status = 404 →
        azdfsNextPage st resp = (Except.ok none, st, true)) ∧
      (st.done = false → (azdfsNextPage st resp).2.2 = true) := by
  intro α st resp
  refine ⟨?_, ?_, ?_, ?_⟩
  · intro hd
    simp [azdfsNextPage, hd]
  · intro hd h200 hch
    rcases resp with ⟨status, ch, body⟩
    simp only at h200 hch
    subst h200
    subst hch
    cases body <;> simp [azdfsNextPage, hd]
  · intro hd h404
    rcases resp with ⟨status, ch, body⟩
    simp only at h404
    subst h404
    simp [azdfsNextPage, hd]
  · intro hd
    rcases resp with ⟨status, ch, body⟩
    by_cases h404 : status = 404
    · simp [azdfsNextPage, hd, h404]
    · by_cases h200 : status = 200
      · subst h200
        cases ch <;> cases body <;> simp [azdfsNextPage, hd, h404]
      · simp [azdfsNextPage, hd, h404, h200]

/-- C10 witness: a done pager answers Ok(None) without a request; a
not-done pager hitting 404 answers Ok(None), stays not done, and did issue
the request. -/
theorem azdfs_pager_done_semantics_witness :
    azdfsNextPage (AzdfsDirState.mk "" true)
        (AzdfsResp.mk 200 none (some ([] : List Unit))) =
      (Except.ok none, AzdfsDirState.mk "" true, false) ∧
    azdfsNextPage (AzdfsDirState.mk "" false)
        (AzdfsResp.mk 404 none (some ([] : List Unit))) =
      (Except.ok none, AzdfsDirState.mk "" false, true) :=
  ⟨(azdfs_pager_done_semantics Unit (AzdfsDirState.mk "" true)
      (AzdfsResp.mk 200 none (some []))).1 rfl,
   (azdfs_pager_done_semantics Unit (AzdfsDirState.mk "" false)
      (AzdfsResp.mk 404 none (some []))).2.2.1 rfl rfl⟩

end Opendal
